import Mathlib

/-!
# Verification of the jotai-ai chat-session core

A shallow embedding of the jotai-ai repository's chat-session state machine,
transcript operations and streaming read loop, together with proofs of the
specification's claims about them.

Source functions embedded here (JS/TS translated to Lean):
* `countTrailingAssistantMessages`, `isAssistantMessageWithCompletedToolCalls`
  from `packages/jotai-ai/src/utils/index.ts`;
* the auto-resubmission decision in `triggerRequest`
  (`packages/jotai-ai/src/make-chat-atoms.ts`);
* the status/error/abort handling of `triggerRequest` and the request body
  construction of `processResponseStream` (the `make-chat-atoms` variant that
  owns a `statusAtom`);
* `addToolResultAtom` (both the inline map-based variant and the variant
  that defers resubmission while a request is in flight);
* `callApi`'s HTTP error checks and its plain-mode read loop
  (`src/chatAtoms.ts`).

JSON payloads that the claims never inspect (tool arguments, tool results,
auxiliary data values, annotations) are modelled by their serialized text,
i.e. by `String`.
-/

namespace JotaiAI

/-! ## Message model -/

/-- `Message.role`: the four roles of the `ai` SDK message type. -/
inductive Role
| user
| assistant
| system
| tool
deriving DecidableEq, Repr

/-- `ToolInvocation.state`: the source's `'partial-call' | 'call' | 'result'`
(with `partial-call` spelled `partCall`). -/
inductive ToolState
| partCall
| call
| result
deriving DecidableEq, Repr

/-- A tool invocation as carried in a message (`toolCallId`, `toolName`,
`args`, `state`, optional `result`). `args` and `result` are serialized
JSON text. -/
structure ToolInvocation where
  toolCallId : String
  toolName : String
  args : String
  state : ToolState
  result : Option String := none
deriving DecidableEq, Repr

/-- A message part: the tagged variants of the `parts` array.  The claims only
inspect `text` and `toolInvocation`; the others are carried for completeness. -/
inductive Part
| text (value : String)
| toolInvocation (ti : ToolInvocation)
| reasoning (value : String)
| stepStart
| source (value : String)
deriving DecidableEq, Repr

/-- A transcript message, with the optional fields of the `ai` SDK `Message`
type.  `none` models an absent (`undefined`) field; `createdAt` is an abstract
timestamp. -/
structure Message where
  id : String
  role : Role
  content : String
  createdAt : Option Nat := none
  reasoning : Option String := none
  parts : Option (List Part) := none
  annotations : Option (List String) := none
  experimental_attachments : Option (List String) := none
  data : Option String := none
  toolInvocations : Option (List ToolInvocation) := none
deriving DecidableEq, Repr

/-! ## utils/index.ts -/

/-- `part.type === 'tool-invocation'`. -/
def isToolInvocationPart : Part → Bool
| .toolInvocation _ => true
| _ => false

/-- `part.toolInvocation.state === 'result'` (on the filtered tool-invocation
parts; any other part is never reached by the source's `every`). -/
def toolInvocationPartIsResult : Part → Bool
| .toolInvocation ti => ti.state == .result
| _ => false

/-- `isAssistantMessageWithCompletedToolCalls` from `utils/index.ts`:
the message's `parts` must be defined, the message must be an assistant
message, there must be at least one tool-invocation part, and every
tool-invocation part must be in state `result`. -/
def isAssistantMessageWithCompletedToolCalls (message : Message) : Bool :=
  match message.parts with
  | none => false
  | some ps =>
    let toolInvocationParts := ps.filter isToolInvocationPart
    message.role == .assistant &&
      toolInvocationParts.length > 0 &&
      toolInvocationParts.all toolInvocationPartIsResult

/-- The loop body of `countTrailingAssistantMessages`, walking the transcript
from its end (here: over the reversed list), counting while the role is
`assistant` and breaking at the first other role. -/
def countTrailingAssistantMessagesAux : List Message → Nat
| [] => 0
| m :: rest =>
  if m.role = .assistant then countTrailingAssistantMessagesAux rest + 1 else 0

/-- `countTrailingAssistantMessages` from `utils/index.ts`. -/
def countTrailingAssistantMessages (messages : List Message) : Nat :=
  countTrailingAssistantMessagesAux messages.reverse

/-! ## The auto-resubmission decision (make-chat-atoms.ts, triggerRequest) -/

/-- The condition of the `if` at the tail of `triggerRequest` in
`make-chat-atoms.ts`, deciding whether to automatically issue a follow-up
request: the transcript grew past the request's message count, there is a
last message, `maxSteps > 1`, the last message is an assistant message with
completed tool calls, and the count of trailing assistant messages is below
`maxSteps`. -/
def shouldResubmit (originalMessageCount maxSteps : Nat)
    (messages : List Message) : Bool :=
  decide (messages.length > originalMessageCount) &&
  messages.getLast?.isSome &&
  decide (maxSteps > 1) &&
  (match messages.getLast? with
   | some lastMessage => isAssistantMessageWithCompletedToolCalls lastMessage
   | none => false) &&
  decide (countTrailingAssistantMessages messages < maxSteps)

/-! ## Spec-side wording of the resubmission rule (claim C2) -/

/-- The tool-invocation parts of a message (empty when `parts` is absent). -/
def toolInvocationPartsOf (m : Message) : List Part :=
  (m.parts.getD []).filter isToolInvocationPart

/-- Spec wording, §4.4: the last message is an assistant message that is
fully resolved — every tool-invocation part is in state `result` and there
is at least one. -/
def specFullyResolvedAssistant (m : Message) : Prop :=
  m.role = .assistant ∧
  toolInvocationPartsOf m ≠ [] ∧
  ∀ p ∈ toolInvocationPartsOf m, toolInvocationPartIsResult p = true

/-- Spec wording of the decision rule: the four conditions of the claim —
the transcript grew, the last message is a fully resolved assistant message,
`maxSteps > 1`, and the trailing assistant count is strictly below
`maxSteps`. -/
def specResubmitCondition (originalMessageCount maxSteps : Nat)
    (messages : List Message) : Prop :=
  messages.length > originalMessageCount ∧
  (∃ lastMessage, messages.getLast? = some lastMessage ∧
    specFullyResolvedAssistant lastMessage) ∧
  maxSteps > 1 ∧
  countTrailingAssistantMessages messages < maxSteps

lemma completedToolCalls_iff_fullyResolved (m : Message) :
    isAssistantMessageWithCompletedToolCalls m = true ↔
      specFullyResolvedAssistant m := by
  unfold isAssistantMessageWithCompletedToolCalls specFullyResolvedAssistant
    toolInvocationPartsOf
  cases hp : m.parts with
  | none => simp
  | some ps =>
    simp [Bool.and_eq_true, List.all_eq_true, beq_iff_eq, List.length_pos]
    constructor
    · rintro ⟨⟨h1, h2⟩, h3⟩
      exact ⟨h1, h2, fun p hp hip => (h3 p hp).resolve_left (by simp [hip])⟩
    · rintro ⟨h1, h2, h3⟩
      refine ⟨⟨h1, h2⟩, fun p hp => ?_⟩
      cases hi : isToolInvocationPart p
      · exact Or.inl rfl
      · exact Or.inr (h3 p hp hi)

/-- **C2.** The auto-resubmission decision of `triggerRequest` holds exactly
when the claim's four conditions hold. -/
theorem c2_resubmit_decision_iff
    (originalMessageCount maxSteps : Nat) (messages : List Message) :
    shouldResubmit originalMessageCount maxSteps messages = true ↔
      specResubmitCondition originalMessageCount maxSteps messages := by
  unfold shouldResubmit specResubmitCondition
  cases h : messages.getLast? with
  | none => simp [h]
  | some lastMessage =>
    simp [h, Bool.and_eq_true, decide_eq_true_iff,
      completedToolCalls_iff_fullyResolved]
    tauto

/-! ## Session controller state (make-chat-atoms with a statusAtom)

`triggerRequest` drives the session through its status values:
it sets `submitted` and clears the error on entry, every `onUpdate` callback
of the stream sets `streaming` and publishes the updated transcript, normal
completion sets `ready`, the `AbortError` branch of the catch sets `ready`
and touches neither the error nor the transcript, and any other thrown
`Error` is stored in the error atom with status `error`.
(The optional `keepLastMessageOnError` restoration, off by default, is not
modelled; no claim depends on it.) -/

/-- `statusAtom`'s values. -/
inductive Status
| ready
| submitted
| streaming
| error
deriving DecidableEq, Repr

/-- A thrown `Error`, reduced to its message. -/
structure ChatError where
  message : String
deriving DecidableEq, Repr

/-- The session state the claims inspect: status, transcript, error field. -/
structure Session where
  status : Status
  messages : List Message
  error : Option ChatError := none
deriving DecidableEq, Repr

/-- The controller events: a submit (entry of `triggerRequest`), a streamed
update carrying the transcript published by `onUpdate`, normal completion,
a thrown error, and an abort. -/
inductive Ev
| submit
| chunk (newMessages : List Message)
| done
| failure (e : ChatError)
| abort
deriving DecidableEq, Repr

/-- What each code path of `triggerRequest` / `processResponseStream` writes
to the session state. -/
def applyEvent (s : Session) : Ev → Session
| .submit => { s with status := .submitted, error := none }
| .chunk newMessages => { s with status := .streaming, messages := newMessages }
| .done => { s with status := .ready }
| .failure e => { s with status := .error, error := some e }
| .abort => { s with status := .ready }

/-- A request is in flight exactly in statuses `submitted` and `streaming`. -/
def inFlight : Status → Bool
| .submitted => true
| .streaming => true
| _ => false

/-- Which event can fire in which status, under the spec's one-request-in-
flight discipline (§5, §6): stream events (`chunk`, `done`, `failure`) belong
to the in-flight request, a submit starts one when none is in flight, and an
abort may happen at any time. -/
def eventAllowed (st : Status) : Ev → Bool
| .submit => !(inFlight st)
| .chunk _ => inFlight st
| .done => inFlight st
| .failure _ => inFlight st
| .abort => true

/-- The claim's transition table: `ready|error --submit--> submitted`,
`submitted --first-chunk--> streaming`, `submitted|streaming --done--> ready`,
`submitted|streaming --failure--> error`, any state `--abort--> ready`. -/
def specTransition : Status → Ev → Status → Bool
| .ready, .submit, .submitted => true
| .error, .submit, .submitted => true
| .submitted, .chunk _, .streaming => true
| .submitted, .done, .ready => true
| .streaming, .done, .ready => true
| .submitted, .failure _, .error => true
| .streaming, .failure _, .error => true
| _, .abort, .ready => true
| _, _, _ => false

/-- **C1.** Every status change made by an allowed controller event follows
the claimed transition table (an event that leaves the status unchanged is
not a transition), and an abort retains the transcript streamed so far. -/
theorem c1_status_transitions (s : Session) (e : Ev)
    (h : eventAllowed s.status e = true) :
    ((applyEvent s e).status = s.status ∨
      specTransition s.status e (applyEvent s e).status = true) ∧
    (e = .abort → (applyEvent s e).messages = s.messages) := by
  obtain ⟨st, msgs, err⟩ := s
  cases e <;> cases st <;>
    simp_all [applyEvent, eventAllowed, inFlight, specTransition]

/-- Witness for C1: a submit from `ready` is allowed and lands in
`submitted`. -/
theorem c1_status_transitions_witness :
    eventAllowed Status.ready Ev.submit = true ∧
    (specTransition Status.ready Ev.submit
      ((applyEvent ⟨.ready, [], none⟩ Ev.submit).status) = true) := by
  refine ⟨by decide, ?_⟩
  rcases c1_status_transitions ⟨.ready, [], none⟩ Ev.submit (by decide) with
    ⟨h1 | h2, _⟩
  · exact absurd h1 (by decide)
  · exact h2

/-! ## HTTP response checks (src/chatAtoms.ts, callApi) -/

/-- An HTTP response: its status code and its body (`none` models a missing
body; `text()` on a missing body yields the empty string). -/
structure HttpResponse where
  status : Nat
  body : Option String := none
deriving DecidableEq, Repr

/-- `response.ok`: the status is in the 2xx range. -/
def responseOk (r : HttpResponse) : Bool :=
  decide (200 ≤ r.status) && decide (r.status < 300)

/-- `await response.text()`. -/
def responseText (r : HttpResponse) : String :=
  r.body.getD ""

/-- The fallback message of the non-2xx branch. -/
def failedFetchMessage : String := "Failed to fetch the chat response."

/-- The message of the empty-body branch. -/
def emptyBodyMessage : String := "The response body is empty."

/-- The two error checks at the head of `callApi`: a non-2xx response throws
an error carrying the body text (or the generic message when the text is
falsy, i.e. empty), and a 2xx response with no body throws the distinct
empty-stream error. -/
def callApiCheck (r : HttpResponse) : Except ChatError Unit :=
  if !(responseOk r) then
    .error ⟨if responseText r ≠ "" then responseText r else failedFetchMessage⟩
  else if r.body.isNone then
    .error ⟨emptyBodyMessage⟩
  else
    .ok ()

/-- **C4.** A non-2xx response makes `callApi` throw an error whose message is
the body text (or the generic message when that text is empty), and the
controller's catch stores that error with status `error`; a 2xx response
without a body throws the distinct empty-stream error instead. -/
theorem c4_http_error_handling (r : HttpResponse) (s : Session) :
    (responseOk r = false →
      ∃ e, callApiCheck r = .error e ∧
        e.message =
          (if responseText r = "" then failedFetchMessage else responseText r) ∧
        (applyEvent s (.failure e)).status = .error ∧
        (applyEvent s (.failure e)).error = some e) ∧
    (responseOk r = true → r.body = none →
      callApiCheck r = .error ⟨emptyBodyMessage⟩ ∧
        emptyBodyMessage ≠ failedFetchMessage) := by
  constructor
  · intro hok
    refine ⟨⟨if responseText r ≠ "" then responseText r else failedFetchMessage⟩,
      ?_, ?_, rfl, rfl⟩
    · simp [callApiCheck, hok]
    · by_cases ht : responseText r = "" <;> simp [ht]
  · intro hok hbody
    refine ⟨?_, by decide⟩
    simp [callApiCheck, hok, hbody]

/-- Witness for C4: a 404 with body `"Not found"` yields the error message
`"Not found"` and, through the catch, status `error`; a 200 with no body
yields the empty-stream error. -/
theorem c4_http_error_handling_witness :
    (∃ e, callApiCheck ⟨404, some "Not found"⟩ = .error e ∧
      e.message = "Not found" ∧
      (applyEvent ⟨.streaming, [], none⟩ (.failure e)).status = .error ∧
      (applyEvent ⟨.streaming, [], none⟩ (.failure e)).error = some e) ∧
    callApiCheck ⟨200, some ""⟩ = .ok () ∧
    callApiCheck ⟨200, none⟩ = .error ⟨emptyBodyMessage⟩ := by
  have h := c4_http_error_handling ⟨404, some "Not found"⟩ ⟨.streaming, [], none⟩
  obtain ⟨e, he1, he2, he3, he4⟩ := h.1 (by decide)
  refine ⟨⟨e, he1, ?_, he3, he4⟩, rfl, ?_⟩
  · simpa using he2
  · exact (c4_http_error_handling ⟨200, none⟩ ⟨.streaming, [], none⟩).2
      (by decide) rfl |>.1

/-! ## Abort (claim C5) -/

/-- The state of the tool invocation with the given id, searched newest-first
through the transcript's parts. -/
def partsToolState (toolCallId : String) : List Part → Option ToolState
| [] => none
| .toolInvocation ti :: rest =>
  if ti.toolCallId = toolCallId then some ti.state
  else partsToolState toolCallId rest
| _ :: rest => partsToolState toolCallId rest

/-- Newest-first lookup of a tool invocation's state in the transcript. -/
def transcriptToolState (toolCallId : String) (messages : List Message) :
    Option ToolState :=
  messages.reverse.findSome? fun m => partsToolState toolCallId (m.parts.getD [])

/-- **C5.** Aborting an in-flight exchange returns the status to `ready`,
leaves the error field unset (it was cleared at submit), and keeps the
transcript — in particular the state of every tool invocation, so one that
had reached `call` stays at `call`. -/
theorem c5_abort_is_silent (s : Session)
    (_hin : inFlight s.status = true) (herr : s.error = none) :
    (applyEvent s .abort).status = .ready ∧
    (applyEvent s .abort).error = none ∧
    (applyEvent s .abort).messages = s.messages ∧
    ∀ toolCallId,
      transcriptToolState toolCallId (applyEvent s .abort).messages =
        transcriptToolState toolCallId s.messages := by
  refine ⟨rfl, ?_, rfl, fun toolCallId => rfl⟩
  simpa [applyEvent] using herr

/-- Witness for C5: a streaming session whose last message holds a tool
invocation in state `call`; after the abort the status is `ready`, no error
is set, and the invocation is still in state `call`. -/
theorem c5_abort_is_silent_witness :
    (applyEvent ⟨.streaming,
        [⟨"m1", .assistant, "", none, none,
          some [.toolInvocation ⟨"tc1", "t", "{}", .call, none⟩],
          none, none, none, none⟩], none⟩ .abort).status = .ready ∧
    (applyEvent ⟨.streaming,
        [⟨"m1", .assistant, "", none, none,
          some [.toolInvocation ⟨"tc1", "t", "{}", .call, none⟩],
          none, none, none, none⟩], none⟩ .abort).error = none ∧
    transcriptToolState "tc1"
      (applyEvent ⟨.streaming,
        [⟨"m1", .assistant, "", none, none,
          some [.toolInvocation ⟨"tc1", "t", "{}", .call, none⟩],
          none, none, none, none⟩], none⟩ .abort).messages = some .call := by
  have h := c5_abort_is_silent ⟨.streaming,
    [⟨"m1", .assistant, "", none, none,
      some [.toolInvocation ⟨"tc1", "t", "{}", .call, none⟩],
      none, none, none, none⟩], none⟩ (by decide) rfl
  refine ⟨h.1, h.2.1, ?_⟩
  rw [h.2.2.2 "tc1"]
  decide

/-! ## Reachability through submit / auto-resubmit (claim C3) -/

lemma countTrailing_append_single (l : List Message) (m : Message) :
    countTrailingAssistantMessages (l ++ [m]) =
      if m.role = .assistant then countTrailingAssistantMessages l + 1
      else 0 := by
  unfold countTrailingAssistantMessages
  rw [List.reverse_append]
  by_cases h : m.role = .assistant <;>
    simp [countTrailingAssistantMessagesAux, h]

lemma shouldResubmit_trailing_lt {originalMessageCount maxSteps : Nat}
    {messages : List Message}
    (h : shouldResubmit originalMessageCount maxSteps messages = true) :
    countTrailingAssistantMessages messages < maxSteps := by
  unfold shouldResubmit at h
  simp only [Bool.and_eq_true, decide_eq_true_iff] at h
  exact h.2

/-- What one exchange does to the transcript it was started with: on failure
or abort nothing new is committed; on success each `onUpdate` publishes the
request messages with the one streamed message appended, so the transcript
ends as `request ++ [streamed]`. -/
inductive ExchangeResult : List Message → List Message → Prop
| failed (requestMessages : List Message) :
    ExchangeResult requestMessages requestMessages
| streamed (requestMessages : List Message) (m : Message) :
    ExchangeResult requestMessages (requestMessages ++ [m])

/-- Transcripts reachable from `init` through the controller's steps: a
submit appends a user message (`handleSubmit` / `submitAtom` append role
`user`) and runs an exchange on the result, and an auto-resubmit runs an
exchange on the current transcript, guarded by the `shouldResubmit`
condition of `triggerRequest`. -/
inductive Reach (maxSteps : Nat) (init : List Message) :
    List Message → Prop
| base : Reach maxSteps init init
| submit (ms next : List Message) (u : Message) :
    Reach maxSteps init ms → u.role = .user →
    ExchangeResult (ms ++ [u]) next → Reach maxSteps init next
| autoResubmit (ms next : List Message) (originalMessageCount : Nat) :
    Reach maxSteps init ms →
    shouldResubmit originalMessageCount maxSteps ms = true →
    ExchangeResult ms next → Reach maxSteps init next

/-- **C3.** Along every sequence of submit / auto-resubmit steps, the number
of consecutive trailing assistant messages never exceeds `maxSteps`
(`maxSteps` is at least 1 by configuration, and the initial transcript
satisfies the bound). -/
theorem c3_trailing_assistant_bound (maxSteps : Nat)
    (init ms : List Message) (hreach : Reach maxSteps init ms)
    (hmax : 1 ≤ maxSteps)
    (hinit : countTrailingAssistantMessages init ≤ maxSteps) :
    countTrailingAssistantMessages ms ≤ maxSteps := by
  induction hreach with
  | base => exact hinit
  | submit ms next u _ hu hex _ =>
    have hbase : countTrailingAssistantMessages (ms ++ [u]) = 0 := by
      rw [countTrailing_append_single]
      simp [hu]
    cases hex with
    | failed => omega
    | streamed m =>
      rw [countTrailing_append_single, hbase]
      by_cases h : m.role = .assistant <;> simp [h] <;> omega
  | autoResubmit ms next originalMessageCount _ hcond hex ih =>
    have hlt := shouldResubmit_trailing_lt hcond
    cases hex with
    | failed => exact ih
    | streamed m =>
      rw [countTrailing_append_single]
      by_cases h : m.role = .assistant <;> simp [h] <;> omega

/-- Witness for C3: the empty transcript with `maxSteps = 1` is reachable and
satisfies the bound. -/
theorem c3_trailing_assistant_bound_witness :
    countTrailingAssistantMessages [] ≤ 1 :=
  c3_trailing_assistant_bound 1 [] [] Reach.base (by decide) (by decide)

/-! ## The plain-mode read loop (src/chatAtoms.ts, callApi, else branch)

Each chunk read from the response body is decoded to text and appended to
`streamedResponse`; if the accumulated text starts with the function-call
marker it is stored in `function_call`, otherwise it becomes the message's
`content`. -/

/-- JS `String.prototype.startsWith`: the second string is a prefix of the
first. -/
def jsStartsWith (s pre : String) : Bool :=
  pre.data.isPrefixOf s.data

/-- The literal `'\x7b"function_call":'` tested by the loop. -/
def functionCallMarker : String := "\x7b\"function_call\":"

/-- The assistant message the loop builds (`id`, `role`, `content` plus the
dynamically attached `function_call`). -/
structure ResponseMessage where
  id : String
  role : Role
  content : String
  function_call : Option String := none
deriving DecidableEq, Repr

/-- One iteration of the read loop: append the decoded chunk to
`streamedResponse`, then store it in `function_call` or in `content`
according to the marker test. -/
def plainStep (st : String × ResponseMessage) (chunk : String) :
    String × ResponseMessage :=
  let streamedResponse := st.1 ++ chunk
  if jsStartsWith streamedResponse functionCallMarker then
    (streamedResponse, { st.2 with function_call := some streamedResponse })
  else
    (streamedResponse, { st.2 with content := streamedResponse })

/-- The loop over a completed stream (all chunks read, then `done`), started
from the fresh assistant reply message with empty content. -/
def runPlainLoop (replyId : String) (chunks : List String) :
    String × ResponseMessage :=
  chunks.foldl plainStep ("", ⟨replyId, .assistant, "", none⟩)

lemma data_prefix_foldl (cs : List String) (a : String) :
    a.data <+: (cs.foldl (· ++ ·) a).data := by
  induction cs generalizing a with
  | nil => exact List.prefix_refl _
  | cons c cs ih =>
    refine List.IsPrefix.trans ?_ (ih (a ++ c))
    rw [String.data_append]
    exact List.prefix_append _ _

lemma jsStartsWith_false_mono {s t p : String}
    (hpre : s.data <+: t.data) (h : jsStartsWith t p = false) :
    jsStartsWith s p = false := by
  unfold jsStartsWith at h ⊢
  rw [Bool.eq_false_iff] at h ⊢
  intro hs
  exact h ((List.isPrefixOf_iff_prefix.mp hs).trans hpre |>
    List.isPrefixOf_iff_prefix.mpr)

lemma plainLoop_aux (chunks : List String) (acc : String)
    (msg : ResponseMessage)
    (h : jsStartsWith (chunks.foldl (· ++ ·) acc) functionCallMarker = false) :
    chunks.foldl plainStep (acc, msg) =
      (chunks.foldl (· ++ ·) acc,
       if chunks.isEmpty then msg
       else { msg with content := chunks.foldl (· ++ ·) acc }) := by
  induction chunks generalizing acc msg with
  | nil => simp
  | cons c cs ih =>
    have hstep : jsStartsWith (acc ++ c) functionCallMarker = false :=
      jsStartsWith_false_mono (data_prefix_foldl cs (acc ++ c)) h
    have h1 : plainStep (acc, msg) c =
        (acc ++ c, { msg with content := acc ++ c }) := by
      simp [plainStep, hstep]
    rw [List.foldl_cons, h1, ih (acc ++ c) _ h]
    cases cs with
    | nil => simp
    | cons d ds => simp

/-- **C6.** For a completed plain-mode stream that is text (not a streamed
function call), the finalized assistant message's content is exactly the
ordered concatenation of the received text chunks — hence it does not depend
on how the stream was split into reads. -/
theorem c6_plain_text_concatenation (replyId : String) (chunks : List String)
    (h : jsStartsWith (String.join chunks) functionCallMarker = false) :
    (runPlainLoop replyId chunks).2.content = String.join chunks ∧
    (runPlainLoop replyId chunks).2.role = .assistant ∧
    ∀ otherChunks : List String,
      String.join otherChunks = String.join chunks →
      (runPlainLoop replyId otherChunks).2.content =
        (runPlainLoop replyId chunks).2.content := by
  have hjoin : ∀ cs : List String, String.join cs = cs.foldl (· ++ ·) "" :=
    fun cs => rfl
  have hmain : ∀ cs : List String,
      jsStartsWith (String.join cs) functionCallMarker = false →
      (runPlainLoop replyId cs).2.content = String.join cs := by
    intro cs hcs
    unfold runPlainLoop
    rw [plainLoop_aux cs "" _ (by rw [← hjoin]; exact hcs)]
    cases cs with
    | nil => simp [String.join]
    | cons d ds => simp [hjoin]
  refine ⟨hmain chunks h, ?_, ?_⟩
  · unfold runPlainLoop
    rw [plainLoop_aux chunks "" _ (by rw [← hjoin]; exact h)]
    cases chunks with
    | nil => simp
    | cons d ds => simp
  · intro otherChunks hsame
    rw [hmain otherChunks (by rw [hsame]; exact h), hmain chunks h, hsame]

/-- Witness for C6: the spec's scenario, chunks `"Hello"`, `","`, `" world"`,
`"."` yield content `"Hello, world."`, also when delivered as one chunk. -/
theorem c6_plain_text_concatenation_witness :
    (runPlainLoop "r1" ["Hello", ",", " world", "."]).2.content =
      "Hello, world." ∧
    (runPlainLoop "r1" ["Hello, world."]).2.content =
      (runPlainLoop "r1" ["Hello", ",", " world", "."]).2.content := by
  have h := c6_plain_text_concatenation "r1" ["Hello", ",", " world", "."]
    (by decide)
  refine ⟨?_, h.2.2 ["Hello, world."] (by decide)⟩
  rw [h.1]
  decide

/-! ## addToolResultAtom (inline map-based variant)

`messages.map((message, index, arr) => index === arr.length - 1 &&
message.role === 'assistant' && message.toolInvocations ? { ...message,
toolInvocations: message.toolInvocations.map(...) } : message)`, then, when
the updated transcript is non-empty and its last message is an assistant
message with completed tool calls, a resubmission is triggered. -/

/-- The inner map over `message.toolInvocations`: the invocation with the
matching `toolCallId` gets the result attached and its state set to
`result`; any other invocation is returned unchanged. -/
def updateToolInvocation (toolCallId result : String)
    (toolInvocation : ToolInvocation) : ToolInvocation :=
  if toolInvocation.toolCallId = toolCallId then
    { toolInvocation with result := some result, state := .result }
  else toolInvocation

/-- JS `Array.prototype.map` with the element index. -/
def mapWithIndex (f : Nat → Message → Message) :
    Nat → List Message → List Message
| _, [] => []
| i, m :: rest => f i m :: mapWithIndex f (i + 1) rest

/-- The update applied to the message at the last index: when it is an
assistant message whose `toolInvocations` field is present (truthy), map
`updateToolInvocation` over it; otherwise leave the message unchanged. -/
def updateLastMessage (toolCallId result : String) (message : Message) :
    Message :=
  if message.role = .assistant ∧ message.toolInvocations.isSome then
    { message with toolInvocations := Option.map (List.map (updateToolInvocation toolCallId result)) message.toolInvocations }
  else message

/-- The transcript update of `addToolResultAtom`: the map over `messages`
touching only the entry whose index is `messages.length - 1`. -/
def addToolResult (toolCallId result : String) (messages : List Message) :
    List Message :=
  mapWithIndex
    (fun index message =>
      if index = messages.length - 1 then
        updateLastMessage toolCallId result message
      else message)
    0 messages

/-- The whole write of `addToolResultAtom`: publish the updated transcript
and report whether a resubmission is triggered (only when the transcript is
non-empty and its last message is an assistant message with completed tool
calls). -/
def addToolResultAction (toolCallId result : String)
    (messages : List Message) : List Message × Bool :=
  let updatedMessages := addToolResult toolCallId result messages
  if updatedMessages.length = 0 then (updatedMessages, false)
  else
    match updatedMessages.getLast? with
    | some lastMessage =>
      (updatedMessages, isAssistantMessageWithCompletedToolCalls lastMessage)
    | none => (updatedMessages, false)

lemma mapWithIndex_congr (f g : Nat → Message → Message) :
    ∀ (l : List Message) (i : Nat),
      (∀ j m, i ≤ j → j < i + l.length → f j m = g j m) →
      mapWithIndex f i l = mapWithIndex g i l := by
  intro l
  induction l with
  | nil => intro i _; rfl
  | cons m rest ih =>
    intro i h
    unfold mapWithIndex
    rw [h i m le_rfl (by simp), ih (i + 1) (fun j x hj1 hj2 =>
      h j x (by omega) (by simp at hj2 ⊢; omega))]

lemma mapWithIndex_eq_self (f : Nat → Message → Message) :
    ∀ (l : List Message) (i : Nat),
      (∀ j m, i ≤ j → j < i + l.length → f j m = m) →
      mapWithIndex f i l = l := by
  intro l
  induction l with
  | nil => intro i _; rfl
  | cons m rest ih =>
    intro i h
    unfold mapWithIndex
    rw [h i m le_rfl (by simp), ih (i + 1) (fun j x hj1 hj2 =>
      h j x (by omega) (by simp at hj2 ⊢; omega))]

lemma mapWithIndex_append (f : Nat → Message → Message) :
    ∀ (l : List Message) (m : Message) (i : Nat),
      mapWithIndex f i (l ++ [m]) =
        mapWithIndex f i l ++ [f (i + l.length) m] := by
  intro l
  induction l with
  | nil => intro m i; simp [mapWithIndex]
  | cons x rest ih =>
    intro m i
    show f i x :: mapWithIndex f (i + 1) (rest ++ [m]) =
      (f i x :: mapWithIndex f (i + 1) rest) ++ [f (i + (x :: rest).length) m]
    rw [ih m (i + 1)]
    simp only [List.cons_append, List.length_cons]
    have h : i + 1 + rest.length = i + (rest.length + 1) := by omega
    rw [h]

/-- Closed form of `addToolResult`: all but the last message are unchanged,
and the last message gets `updateLastMessage`. -/
lemma addToolResult_closed (toolCallId result : String)
    (l : List Message) (m : Message) :
    addToolResult toolCallId result (l ++ [m]) =
      l ++ [updateLastMessage toolCallId result m] := by
  unfold addToolResult
  rw [mapWithIndex_append]
  have h1 : mapWithIndex
      (fun index message =>
        if index = (l ++ [m]).length - 1 then
          updateLastMessage toolCallId result message
        else message) 0 l = l := by
    apply mapWithIndex_eq_self
    intro j x hj1 hj2
    have hne : ¬ (j = (l ++ [m]).length - 1) := by
      simp only [List.length_append, List.length_cons, List.length_nil]
      omega
    rw [if_neg hne]
  rw [h1]
  simp

lemma addToolResult_nil (toolCallId result : String) :
    addToolResult toolCallId result [] = [] := rfl

lemma updateToolInvocation_idem (toolCallId result : String)
    (ti : ToolInvocation) :
    updateToolInvocation toolCallId result
        (updateToolInvocation toolCallId result ti) =
      updateToolInvocation toolCallId result ti := by
  unfold updateToolInvocation
  by_cases h : ti.toolCallId = toolCallId <;> simp [h]

lemma updateLastMessage_idem (toolCallId result : String) (m : Message) :
    updateLastMessage toolCallId result
        (updateLastMessage toolCallId result m) =
      updateLastMessage toolCallId result m := by
  by_cases h : m.role = .assistant ∧ m.toolInvocations.isSome
  · obtain ⟨h1, h2⟩ := h
    cases hti : m.toolInvocations with
    | none => rw [hti] at h2; simp at h2
    | some tis =>
      have hmap : List.map (updateToolInvocation toolCallId result)
          (List.map (updateToolInvocation toolCallId result) tis) =
          List.map (updateToolInvocation toolCallId result) tis := by
        rw [List.map_map]
        exact List.map_congr_left fun ti _ =>
          updateToolInvocation_idem toolCallId result ti
      simp [updateLastMessage, h1, hti, hmap]
  · simp [updateLastMessage, h]

/-- **C7.** `addToolResult` is idempotent on the transcript: applying it
twice with the same `toolCallId` and result leaves the transcript identical
to applying it once. -/
theorem c7_addToolResult_idempotent (toolCallId result : String)
    (messages : List Message) :
    addToolResult toolCallId result
        (addToolResult toolCallId result messages) =
      addToolResult toolCallId result messages := by
  rcases List.eq_nil_or_concat messages with h | ⟨l, m, h⟩
  · subst h; rfl
  · subst h
    simp only [List.concat_eq_append]
    rw [addToolResult_closed, addToolResult_closed, updateLastMessage_idem]

/-- **C10.** `addToolResult` mutates at most the last message: the length is
preserved, every message before the last is unchanged, in the last message
every tool invocation with a different `toolCallId` is unchanged, and on an
empty transcript the write changes nothing and triggers no request. -/
theorem c10_addToolResult_frame (toolCallId result : String)
    (messages : List Message) :
    (addToolResult toolCallId result messages).length = messages.length ∧
    (∀ i, i + 1 < messages.length →
      (addToolResult toolCallId result messages)[i]? = messages[i]?) ∧
    (∀ mOrig, messages.getLast? = some mOrig →
      (addToolResult toolCallId result messages).getLast? =
        some (updateLastMessage toolCallId result mOrig) ∧
      ∀ tis, mOrig.toolInvocations = some tis →
        ((updateLastMessage toolCallId result mOrig).toolInvocations =
            some tis ∨
         (updateLastMessage toolCallId result mOrig).toolInvocations =
            some (tis.map (updateToolInvocation toolCallId result))) ∧
        ∀ ti ∈ tis, ti.toolCallId ≠ toolCallId →
          updateToolInvocation toolCallId result ti = ti) ∧
    addToolResultAction toolCallId result [] = ([], false) := by
  have hinv : ∀ (mOrig : Message) (tis : List ToolInvocation),
      mOrig.toolInvocations = some tis →
      ((updateLastMessage toolCallId result mOrig).toolInvocations =
          some tis ∨
       (updateLastMessage toolCallId result mOrig).toolInvocations =
          some (tis.map (updateToolInvocation toolCallId result))) ∧
      ∀ ti ∈ tis, ti.toolCallId ≠ toolCallId →
        updateToolInvocation toolCallId result ti = ti := by
    intro mOrig tis hti
    constructor
    · unfold updateLastMessage
      by_cases h : mOrig.role = .assistant ∧ mOrig.toolInvocations.isSome
      · right
        simp [h, hti]
      · left
        rw [if_neg h]
        exact hti
    · intro ti _ hne
      unfold updateToolInvocation
      rw [if_neg hne]
  rcases List.eq_nil_or_concat messages with h | ⟨l, m, h⟩
  · subst h
    refine ⟨rfl, by simp, by simp, rfl⟩
  · subst h
    simp only [List.concat_eq_append]
    rw [addToolResult_closed]
    refine ⟨by simp, ?_, ?_, rfl⟩
    · intro i hi
      simp only [List.length_append, List.length_cons, List.length_nil] at hi
      rw [List.getElem?_append_left (by omega),
        List.getElem?_append_left (by omega)]
    · intro mOrig hlast
      rw [List.getLast?_concat] at hlast
      obtain rfl : m = mOrig := by simpa using hlast
      exact ⟨List.getLast?_concat l, hinv m⟩

/-- Witness for C10: a two-message transcript whose last assistant message
holds a matching and a non-matching invocation; the first message and the
non-matching invocation are untouched, and the empty transcript triggers
nothing. -/
theorem c10_addToolResult_frame_witness :
    (addToolResult "tc1" "42"
        [⟨"m0", .user, "hi", none, none, none, none, none, none, none⟩,
         ⟨"m1", .assistant, "", none, none, none, none, none, none,
          some [⟨"tc1", "t", "a", .call, none⟩,
                ⟨"tc2", "t", "b", .call, none⟩]⟩])[0]? =
      some ⟨"m0", .user, "hi", none, none, none, none, none, none, none⟩ ∧
    updateToolInvocation "tc1" "42" ⟨"tc2", "t", "b", .call, none⟩ =
      ⟨"tc2", "t", "b", .call, none⟩ ∧
    addToolResultAction "tc1" "42" [] = ([], false) := by
  have h := c10_addToolResult_frame "tc1" "42"
    [⟨"m0", .user, "hi", none, none, none, none, none, none, none⟩,
     ⟨"m1", .assistant, "", none, none, none, none, none, none,
      some [⟨"tc1", "t", "a", .call, none⟩, ⟨"tc2", "t", "b", .call, none⟩]⟩]
  obtain ⟨hlast, hrest⟩ := h.2.2.1
    ⟨"m1", .assistant, "", none, none, none, none, none, none,
      some [⟨"tc1", "t", "a", .call, none⟩, ⟨"tc2", "t", "b", .call, none⟩]⟩
    (by decide)
  refine ⟨?_, ?_, h.2.2.2⟩
  · rw [h.2.1 0 (by decide)]
    decide
  · exact (hrest [⟨"tc1", "t", "a", .call, none⟩,
      ⟨"tc2", "t", "b", .call, none⟩] rfl).2
      ⟨"tc2", "t", "b", .call, none⟩ (by decide) (by decide)

/-! ## addToolResultAtom (variant with statusAtom)

This variant reads the transcript and the status, returns on an empty
transcript, records the result with the imported `updateToolCallResult`
helper, publishes the updated transcript, and — only when no request is in
flight — triggers the resubmission when the last message is an assistant
message with completed tool calls. -/

/-- Does any tool-invocation part of the message carry the given id? -/
def messageHasToolCall (toolCallId : String) (m : Message) : Bool :=
  (m.parts.getD []).any fun p =>
    match p with
    | .toolInvocation ti => ti.toolCallId == toolCallId
    | _ => false

/-- Set the matching tool-invocation part of one message to state `result`
with the result attached. -/
def setToolResultInMessage (toolCallId result : String) (m : Message) :
    Message :=
  { m with parts := Option.map (List.map fun p => match p with
      | Part.toolInvocation ti =>
        if ti.toolCallId = toolCallId then
          Part.toolInvocation { ti with state := .result, result := some result }
        else p
      | _ => p) m.parts }

/-- Newest-first walk (over the reversed transcript): update the first
message found to contain the call. -/
def updateNewestFirst (toolCallId result : String) :
    List Message → List Message
| [] => []
| m :: rest =>
  if messageHasToolCall toolCallId m then
    setToolResultInMessage toolCallId result m :: rest
  else m :: updateNewestFirst toolCallId result rest

/-- Modelled from the spec: the `updateToolCallResult` helper that
`addToolResultAtom` calls is imported from `@ai-sdk/ui-utils` and is not
part of this repository's sources. Following §4.3's `ToolResult` rule, it
locates the ToolInvocation part with the matching id (searching
newest-first) and sets its state to `result` with the result attached. -/
def updateToolCallResult (toolCallId result : String)
    (messages : List Message) : List Message :=
  (updateNewestFirst toolCallId result messages.reverse).reverse

/-- The body of the status-aware `addToolResultAtom`: returns the published
transcript together with whether a resubmission is triggered.  While a
request is in flight (`submitted` or `streaming`) it returns right after
recording the result, so the resubmission decision is left to the running
`triggerRequest`'s completion path. -/
def addToolResultFlow (status : Status) (toolCallId result : String)
    (messages : List Message) : List Message × Bool :=
  if messages.length = 0 then (messages, false)
  else
    let updatedMessages := updateToolCallResult toolCallId result messages
    if status = .submitted ∨ status = .streaming then (updatedMessages, false)
    else
      match updatedMessages.getLast? with
      | some lastMessage =>
        (updatedMessages,
          isAssistantMessageWithCompletedToolCalls lastMessage)
      | none => (updatedMessages, false)

/-- **C8.** Submitting a tool result while an exchange is in flight records
the result in the transcript but triggers no resubmission; in a
non-in-flight status the same write is followed by the resubmission
decision on the recorded transcript. -/
theorem c8_addToolResult_defers_resubmission (toolCallId result : String)
    (messages : List Message) (hne : messages ≠ []) :
    (∀ status, status = .submitted ∨ status = .streaming →
      addToolResultFlow status toolCallId result messages =
        (updateToolCallResult toolCallId result messages, false)) ∧
    (addToolResultFlow .ready toolCallId result messages).1 =
      updateToolCallResult toolCallId result messages := by
  have hlen : ¬ (messages.length = 0) := by
    simpa [List.length_eq_zero] using hne
  constructor
  · intro status hstatus
    unfold addToolResultFlow
    rw [if_neg hlen, if_pos hstatus]
  · unfold addToolResultFlow
    rw [if_neg hlen, if_neg (by simp)]
    cases (updateToolCallResult toolCallId result messages).getLast? <;> rfl

/-- Witness for C8: while streaming, submitting the result of the pending
call records it (state becomes `result`) but does not trigger a request. -/
theorem c8_addToolResult_defers_resubmission_witness :
    (addToolResultFlow .streaming "tc1" "42"
        [⟨"m1", .assistant, "", none, none,
          some [.toolInvocation ⟨"tc1", "t", "a", .call, none⟩],
          none, none, none, none⟩]).2 = false ∧
    transcriptToolState "tc1"
      (addToolResultFlow .streaming "tc1" "42"
        [⟨"m1", .assistant, "", none, none,
          some [.toolInvocation ⟨"tc1", "t", "a", .call, none⟩],
          none, none, none, none⟩]).1 = some .result := by
  have h := c8_addToolResult_defers_resubmission "tc1" "42"
    [⟨"m1", .assistant, "", none, none,
      some [.toolInvocation ⟨"tc1", "t", "a", .call, none⟩],
      none, none, none, none⟩] (by decide)
  have h2 := h.1 .streaming (Or.inr rfl)
  rw [h2]
  exact ⟨rfl, by decide⟩

/-! ## Request body construction (processResponseStream)

`JSON.stringify` renders a JS object as its ordered field list and omits
properties whose value is `undefined`; a serialized object is therefore
modelled as a `List (String × _)` of the present fields in literal order. -/

/-- `role` rendered for the wire. -/
def roleToString : Role → String
| .user => "user"
| .assistant => "assistant"
| .system => "system"
| .tool => "tool"

/-- A serialized message field value. -/
inductive FieldVal
| vStr (s : String)
| vNat (n : Nat)
| vParts (ps : List Part)
| vStrList (xs : List String)
| vToolInvocations (ts : List ToolInvocation)
deriving DecidableEq, Repr

/-- The conditional spread `...(x !== undefined && \x7b key: x \x7d)` of the
message serialization, combined with `JSON.stringify` omitting undefined
values: the field is present exactly when the value is defined. -/
def optionalField {α : Type} (o : Option α) (key : String)
    (f : α → FieldVal) : List (String × FieldVal) :=
  match o with
  | some x => [(key, f x)]
  | none => []

/-- The trimmed message payload built by `processResponseStream` when
`sendExtraMessageFields` is disabled: the destructuring keeps `id`, `role`,
`content`, `createdAt`, and spreads `parts`, `annotations`,
`experimental_attachments` and the deprecated `data` and `toolInvocations`
only when defined; every other field (e.g. `reasoning`) is dropped.
`createdAt` is kept in the literal but omitted by `JSON.stringify` when
undefined. -/
def serializeMessageTrimmed (m : Message) : List (String × FieldVal) :=
  [("id", .vStr m.id), ("role", .vStr (roleToString m.role)),
   ("content", .vStr m.content)]
  ++ optionalField m.createdAt "createdAt" FieldVal.vNat
  ++ optionalField m.parts "parts" FieldVal.vParts
  ++ optionalField m.annotations "annotations" FieldVal.vStrList
  ++ optionalField m.experimental_attachments "experimental_attachments"
      FieldVal.vStrList
  ++ optionalField m.data "data" FieldVal.vStr
  ++ optionalField m.toolInvocations "toolInvocations"
      FieldVal.vToolInvocations

/-- A value in the request body object. -/
inductive BodyVal
| bStr (s : String)
| bMessages (ms : List (List (String × FieldVal)))
| bData (d : String)
| bExtra (x : String)
deriving DecidableEq, Repr

/-- The default request body literal of `processResponseStream` (no
`experimental_prepareRequestBody` configured): `id` is the chat id,
`messages` the constructed payload, `data` when defined, then the spreads of
the configured extra body and the per-request body (later keys override
earlier ones on lookup). -/
def requestBody (chatId : String)
    (serializedMessages : List (List (String × FieldVal)))
    (requestData : Option String)
    (extraBody chatRequestBody : List (String × BodyVal)) :
    List (String × BodyVal) :=
  [("id", .bStr chatId), ("messages", .bMessages serializedMessages)]
  ++ (match requestData with
      | some d => [("data", BodyVal.bData d)]
      | none => [])
  ++ extraBody ++ chatRequestBody

/-- JS object lookup under duplicate keys: the last assignment wins. -/
def objLookup (kvs : List (String × BodyVal)) (key : String) :
    Option BodyVal :=
  (kvs.reverse.find? fun kv => kv.1 == key).map (·.2)

/-- The claim's minimal field set for a trimmed serialized message. -/
def minimalFieldSet : List String :=
  ["role", "content", "parts", "annotations", "experimental_attachments"]

/-- The fields a trimmed serialized message may actually carry. -/
def trimmedFieldSet : List String :=
  ["id", "role", "content", "createdAt", "parts", "annotations",
   "experimental_attachments", "data", "toolInvocations"]

lemma optionalField_keys_sublist {α : Type} (o : Option α) (key : String)
    (f : α → FieldVal) :
    ((optionalField o key f).map Prod.fst).Sublist [key] := by
  cases o <;> simp [optionalField]

lemma serializeMessageTrimmed_keys_sublist (m : Message) :
    ((serializeMessageTrimmed m).map Prod.fst).Sublist trimmedFieldSet := by
  show ((serializeMessageTrimmed m).map Prod.fst).Sublist
    (["id", "role", "content"] ++ ["createdAt"] ++ ["parts"] ++
      ["annotations"] ++ ["experimental_attachments"] ++ ["data"] ++
      ["toolInvocations"])
  unfold serializeMessageTrimmed
  simp only [List.map_append]
  exact ((((((List.Sublist.refl _).append
    (optionalField_keys_sublist m.createdAt "createdAt" _)).append
    (optionalField_keys_sublist m.parts "parts" _)).append
    (optionalField_keys_sublist m.annotations "annotations" _)).append
    (optionalField_keys_sublist m.experimental_attachments
      "experimental_attachments" _)).append
    (optionalField_keys_sublist m.data "data" _)).append
    (optionalField_keys_sublist m.toolInvocations "toolInvocations" _)

/-- The claim C9, as stated: with `sendExtraMessageFields` disabled, every
serialized message carries only `role`, `content` and the optional
`parts`/`attachments`/`annotations` fields. -/
def claimC9FieldsProp : Prop :=
  ∀ m : Message, ∀ k ∈ (serializeMessageTrimmed m).map Prod.fst,
    k ∈ minimalFieldSet

/-- **C9, counterexample.** The claim is false: a message's serialization
always carries `id` (and `createdAt` when present), which is outside the
claimed minimal set. -/
theorem c9_counterexample : ¬ claimC9FieldsProp := by
  intro h
  have := h ⟨"m1", .user, "hi", some 7, none, none, none, none, none, none⟩
    "id" (by decide)
  exact absurd this (by decide)

/-- **C9, amended.** Every trimmed serialized message carries only `id`,
`role`, `content`, `createdAt` and the optional `parts`, `annotations`,
`experimental_attachments` and deprecated `data`/`toolInvocations` fields —
other fields such as `reasoning` are omitted — and the default request body
contains the chat id under `id` and the serialized messages under
`messages` whenever the caller-supplied body objects do not override those
keys. -/
theorem c9_request_body (m : Message) :
    (∀ k ∈ (serializeMessageTrimmed m).map Prod.fst, k ∈ trimmedFieldSet) ∧
    "reasoning" ∉ (serializeMessageTrimmed m).map Prod.fst ∧
    ∀ (chatId : String)
      (serializedMessages : List (List (String × FieldVal)))
      (requestData : Option String)
      (extraBody chatRequestBody : List (String × BodyVal)),
      (∀ kv ∈ extraBody ++ chatRequestBody,
        kv.1 ≠ "id" ∧ kv.1 ≠ "messages") →
      objLookup (requestBody chatId serializedMessages requestData
          extraBody chatRequestBody) "id" = some (.bStr chatId) ∧
      objLookup (requestBody chatId serializedMessages requestData
          extraBody chatRequestBody) "messages" =
        some (.bMessages serializedMessages) := by
  refine ⟨?_, ?_, ?_⟩
  · intro k hk
    exact (serializeMessageTrimmed_keys_sublist m).subset hk
  · intro hk
    exact absurd ((serializeMessageTrimmed_keys_sublist m).subset hk)
      (by decide)
  · intro chatId serializedMessages requestData extraBody chatRequestBody hext
    have hfind : ∀ key : String, key = "id" ∨ key = "messages" →
        (extraBody ++ chatRequestBody).reverse.find?
          (fun kv => kv.1 == key) = none := by
      intro key hkey
      rw [List.find?_eq_none]
      intro kv hkv
      have := hext kv (List.mem_reverse.mp hkv)
      rcases hkey with rfl | rfl <;> simp [this.1, this.2]
    unfold requestBody objLookup
    rw [List.append_assoc, List.append_assoc, List.reverse_append,
      List.reverse_append]
    constructor
    · rw [List.find?_append, List.find?_append,
        hfind "id" (Or.inl rfl)]
      cases requestData <;> simp
    · rw [List.find?_append, List.find?_append,
        hfind "messages" (Or.inr rfl)]
      cases requestData <;> simp

/-- Witness for C9 (amended): a concrete message serializes to the expected
keys and the body built over a non-shadowing extra body exposes the chat id
and the messages. -/
theorem c9_request_body_witness :
    ("id" ∈ (serializeMessageTrimmed
      ⟨"m1", .user, "hi", some 7, none, none, none, none, none, none⟩).map
        Prod.fst → "id" ∈ trimmedFieldSet) ∧
    objLookup (requestBody "chat1" [] none [("sessionId", .bExtra "s")] [])
        "id" = some (.bStr "chat1") ∧
    objLookup (requestBody "chat1" [] none [("sessionId", .bExtra "s")] [])
        "messages" = some (.bMessages []) := by
  have h := c9_request_body
    ⟨"m1", .user, "hi", some 7, none, none, none, none, none, none⟩
  have h3 := h.2.2 "chat1" [] none [("sessionId", .bExtra "s")] []
    (by intro kv hkv; simp at hkv; simp [hkv])
  exact ⟨h.1 "id", h3.1, h3.2⟩

end JotaiAI
